import Mathlib

/-!
Verification of the transwarp routing/middleware core.

Go strings are modelled as `List Char` (byte-for-byte sequences; all route
strings in the repository are ASCII).  Go's `map[string]T` is modelled as an
association list `List (List Char × T)`; a concrete list order stands for one
iteration order of the map, so theorems that must not depend on iteration
order quantify over the list (or over permutations of it), and map lookups
(`m.Handlers[key]`) are `List.lookup` together with a `Nodup` hypothesis on
the keys (Go map keys are unique).
-/

/-- Go `string` literal as a character list. -/
def chars (s : String) : List Char := s.data

/-- Go `strings.SplitN(s, " ", 2)`: the part before the first space and,
when a space exists, the remainder (which may itself contain spaces).
`none` in the second component means the separator did not occur
(Go returns a one-element slice). -/
def breakAtSpace : List Char → List Char × Option (List Char)
  | [] => ([], none)
  | c :: rest =>
    if c = ' ' then ([], some rest)
    else
      let r := breakAtSpace rest
      (c :: r.1, r.2)

/-- One entry of the fallback scan in `MockRouter.ServeHTTP`
(echoadapter/echo.go lines 492-514): split the route key `"METHOD /pattern"`
at the first space; skip it unless the method matches; if the pattern
contains `':'`, take `strings.Split(pattern, ":")[0]` (the text before the
first colon) and test `strings.HasPrefix(path, base)`. -/
def dynFallbackMatch (method path routeKey : List Char) : Bool :=
  match breakAtSpace routeKey with
  | (m, some pattern) =>
    m == method && pattern.contains ':' &&
      (pattern.takeWhile (fun c => c != ':')).isPrefixOf path
  | (_, none) => false

/-- `MockRouter.ServeHTTP` (echoadapter/echo.go lines 471-518): build the key
`r.Method + " " + r.URL.Path`; if the Handlers map has it, run that handler;
otherwise scan the map entries (in the map's iteration order, here the list
order) for the first dynamic-pattern match; otherwise `http.NotFound`.
`H` is the handler type; the function returns the selected handler. -/
def mockServeHTTP {H : Type} (handlers : List (List Char × H)) (notFound : H)
    (method path : List Char) : H :=
  match handlers.lookup (method ++ ' ' :: path) with
  | some h => h
  | none =>
    match handlers.find? (fun e => dynFallbackMatch method path e.1) with
    | some e => e.2
    | none => notFound

/-- The observable shape of a standard `func(http.Handler) http.Handler`
middleware, as exercised by the repository: `pass a b` performs some work
(event `a`), invokes the continuation it was given, then performs more work
(event `b`); `abort r` writes its own response `r` and returns without
invoking the continuation (the firewall middleware in the test suite). -/
inductive MW (E : Type) where
  | pass (a b : E)
  | abort (r : E)

/-- Per-request execution state: the log of executed steps, and the response
committed to the ResponseWriter (set by whichever layer writes it). -/
structure ExecState (E : Type) where
  log : List E
  response : Option E

/-- Whether a middleware invokes the continuation handler it was given. -/
def callsNext {E : Type} : MW E → Bool
  | .pass _ _ => true
  | .abort _ => false

/-- The event a middleware logs before (or instead of) its continuation. -/
def entryEvent {E : Type} : MW E → E
  | .pass a _ => a
  | .abort r => r

/-- The event a `pass` middleware logs after its continuation returns. -/
def exitEvent {E : Type} : MW E → E
  | .pass _ b => b
  | .abort r => r

/-- Semantics of one middleware layer applied to the next handler, in the
standard net/http pattern used throughout the repository. -/
def applyMW {E : Type} (m : MW E) (next : ExecState E → ExecState E) :
    ExecState E → ExecState E :=
  fun s =>
    match m with
    | .pass a b =>
      let s1 := next { s with log := s.log ++ [a] }
      { s1 with log := s1.log ++ [b] }
    | .abort r => { s with log := s.log ++ [r], response := some r }

/-- A terminal handler: logs its event and writes its response. -/
def terminalH {E : Type} (e : E) : ExecState E → ExecState E :=
  fun s => { s with log := s.log ++ [e], response := some e }

/-- `GinAdapter.Use` (ginadapter lines 102-134): run the standard middleware
against a continuation that sets a `called` flag and hands control back to
Gin; after the middleware returns, invoke `c.Abort()` iff `called` is still
false.  Returns the final state and whether `Abort` was invoked. -/
def ginUseStep {E : Type} (m : MW E) (next : ExecState E → ExecState E)
    (s : ExecState E) : ExecState E × Bool :=
  match m with
  | .pass a b =>
    let s1 := next { s with log := s.log ++ [a] }
    ({ s1 with log := s1.log ++ [b] }, false)
  | .abort r => ({ s with log := s.log ++ [r], response := some r }, true)

/-- `Chain` (transwarp.go lines 178-192): if the middleware list is empty,
return the handler unchanged; otherwise wrap it iterating `i` from
`len(mws)-1` down to `0`, `final = mws[i](final)`. -/
def Chain {H : Type} (h : H) (mws : List (H → H)) : H :=
  if mws.isEmpty then h
  else mws.reverse.foldl (fun acc m => m acc) h

/-- The identical downward wrapping loop in `MockRouter.register`
(echoadapter lines 418-433) and `NativeAdapter.registerToMux`
(nativeadapter lines 110-119). -/
def composeMiddlewares {H : Type} (mws : List (H → H)) (h : H) : H :=
  mws.reverse.foldl (fun acc m => m acc) h

/-- `MockRouter.Param` (echoadapter lines 446-451): read the parameter map
injected under `MockParamsKey` in the request context; a missing key in a Go
map yields the empty string, and a missing/mistyped context value yields the
empty string. -/
def mockParam (ctxVal : Option (List (List Char × List Char)))
    (key : List Char) : List Char :=
  match ctxVal with
  | some params => (params.lookup key).getD []
  | none => []

/-- `FiberAdapter.Param` (fiberadapter lines 129-138): look the key up among
the per-request context values injected by `handle`; return the value when
present, the empty string when the key is absent or no request context was
populated. -/
def fiberParam (ctxVal : Option (List (List Char × List Char)))
    (key : List Char) : List Char :=
  match ctxVal with
  | none => []
  | some entries =>
    match entries.lookup key with
    | some v => v
    | none => []

/-- `Config` (transwarp.go): the requested driver name. -/
structure Config where
  driver : String

/-- `Register` (registry.go lines 32-34): `registry[d] = c`.  The registry
map is modelled as a function from driver name to registered constructor. -/
def Register {C : Type} (reg : String → Option C) (d : String) (c : C) :
    String → Option C :=
  fun k => if k = d then some c else reg k

/-- `New` (registry.go lines 54-61): look the requested driver up in the
registry; construct it when found, otherwise panic (modelled as `.error`)
with the message naming the missing driver and its build tag. -/
def New {T : Type} (reg : String → Option (Unit → T)) (cfg : Config) :
    Except String T :=
  match reg cfg.driver with
  | some ctor => .ok (ctor ())
  | none =>
    .error ("Transwarp Error: Driver '" ++ cfg.driver ++
      "' is not available. Did you forget to compile with '-tags " ++
      cfg.driver ++ "'?")

/-- The state of one router group: its accumulated path text and its own
middleware stack (middlewares identified by id).  Mirrors the `MockRouter`
struct fields `prefix` and `middlewares` (echoadapter lines 381-389); the
`FiberAdapter` carries the same pair. -/
structure GroupState where
  pfx : List Char
  mws : List Nat
  deriving DecidableEq

/-- A registered route: lookup key, handler id, and the frozen middleware
snapshot it was wrapped with at registration time. -/
structure RouteEntry where
  key : List Char
  handler : Nat
  snapshot : List Nat
  deriving DecidableEq

/-- Setup-phase state: the live group objects (index = identity of the Go
pointer; `Group` allocates at the end) and the shared route table. -/
structure SetupState where
  groups : List GroupState
  table : List RouteEntry
  deriving DecidableEq

/-- One setup-phase API call on some group: `Group` (branch a child),
`Use` (append a middleware), or a verb registration. -/
inductive SetupOp where
  | group (parent : Nat) (sub : List Char)
  | use (g : Nat) (mw : Nat)
  | register (g : Nat) (method path : List Char) (handler : Nat)

/-- In-place update of one group object (a write through its pointer). -/
def updateAt (l : List GroupState) (i : Nat) (f : GroupState → GroupState) :
    List GroupState :=
  match l, i with
  | [], _ => []
  | x :: xs, 0 => f x :: xs
  | x :: xs, n + 1 => x :: updateAt xs n f

/-- One setup call.  `group` copies the parent's middleware slice by value
(`make` + `copy` in `MockRouter.Group`, echoadapter lines 400-410, and
`FiberAdapter.Group`, fiberadapter lines 49-59) and concatenates the
prefix text (`m.prefix + path` in the Mock); `use` appends to the receiver's
own stack only (echoadapter lines 413-415); `register` records the key
`method + " " + prefix + path` with a frozen snapshot of the receiver's
current stack (echoadapter lines 418-433). -/
def applyOp (st : SetupState) (op : SetupOp) : SetupState :=
  match op with
  | .group parent sub =>
    match st.groups[parent]? with
    | some g => { st with groups := st.groups ++ [⟨g.pfx ++ sub, g.mws⟩] }
    | none => st
  | .use g mw =>
    { st with groups := updateAt st.groups g (fun s => ⟨s.pfx, s.mws ++ [mw]⟩) }
  | .register g method path handler =>
    match st.groups[g]? with
    | some gs =>
      { st with table :=
          st.table ++ [⟨method ++ ' ' :: (gs.pfx ++ path), handler, gs.mws⟩] }
    | none => st

/-- Run a whole setup phase. -/
def runSetup (st : SetupState) (ops : List SetupOp) : SetupState :=
  ops.foldl applyOp st

/-- The middlewares an operation sequence adds, via `Use`, to group `g`. -/
def usesOn (ops : List SetupOp) (g : Nat) : List Nat :=
  ops.filterMap fun op =>
    match op with
    | .use g2 mw => if g2 = g then some mw else none
    | _ => none

/-- Go `strings.TrimSuffix(prefix, "/")`: drop one trailing slash if present
(nativeadapter line 162). -/
def trimOneTrailingSlash (l : List Char) : List Char :=
  if l.getLast? = some '/' then l.dropLast else l

/-- `NativeAdapter.joinPath` (nativeadapter lines 154-169): empty parent
returns the path; empty or bare-slash path returns the parent; otherwise one
trailing slash is trimmed from the parent, a leading slash is ensured on the
path, and the two are concatenated. -/
def joinPath (pfx path : List Char) : List Char :=
  if pfx = [] then path
  else if path = [] ∨ path = ['/'] then pfx
  else
    trimOneTrailingSlash pfx ++
      (if path.head? = some '/' then path else '/' :: path)

/-- An HTTP response as observed at the chain boundary. -/
structure HttpResp where
  status : Nat
  body : List Char

/-- The outcome of running a Go handler: a normal return having produced a
response, or an uncaught fault (panic) carrying its payload. -/
def HandlerOutcome : Type := Except (List Char) HttpResp

/-- The route handler `FiberAdapter.handle` registers (fiberadapter lines
87-122): run the composed handler; the deferred `recover()` converts a
fault into `c.Status(500).SendString("Panic Detected")`; a normal return
passes the response through. -/
def fiberRouteHandler (result : HandlerOutcome) : HttpResp :=
  match result with
  | .ok resp => resp
  | .error _ => ⟨500, chars "Panic Detected"⟩

/-- `MockRouter.ServeHTTP` dispatch with fallible handlers: the selected
handler is simply invoked (`handler(w, r)`, echoadapter line 486) with no
`recover` anywhere in `ServeHTTP`, so the handler's outcome — fault
included — is the outcome of the dispatch operation. -/
def mockDispatch (handlers : List (List Char × (Unit → HandlerOutcome)))
    (notFound : Unit → HandlerOutcome) (method path : List Char) :
    HandlerOutcome :=
  mockServeHTTP handlers notFound method path ()

/-- A character of the class `[a-zA-Z0-9_]` used by `paramRegex`
(nativeadapter line 27). -/
def wordChar (c : Char) : Bool := c.isAlpha || c.isDigit || c == '_'

/-- `paramRegex.ReplaceAllString(p, "{$1}")` (nativeadapter line 137): scan
left to right; each `':'` followed by a maximal nonempty run of word
characters is replaced by that run wrapped in braces; every other character
(including a `':'` not followed by a word character) is copied. -/
def convertParams : List Char → List Char
  | [] => []
  | c :: rest =>
    if c = ':' then
      if (rest.takeWhile wordChar).isEmpty then ':' :: convertParams rest
      else
        '{' :: rest.takeWhile wordChar ++
          '}' :: convertParams (rest.dropWhile wordChar)
    else c :: convertParams rest
termination_by l => l.length
decreasing_by
  · simp
  · have hle : ∀ t : List Char, (List.dropWhile wordChar t).length ≤ t.length := by
      intro t
      induction t with
      | nil => simp
      | cons a t2 iht =>
        rw [List.dropWhile_cons]
        by_cases h : wordChar a = true
        · rw [if_pos h]
          exact Nat.le_succ_of_le iht
        · rw [if_neg h]
    exact Nat.lt_succ_of_le (hle rest)
  · simp

/-- The character class `[^/]` of `suffixCleaner` (nativeadapter line 30). -/
def notSlash (c : Char) : Bool := c != '/'

/-- `suffixCleaner.ReplaceAllString(converted, "}")` (nativeadapter line
148): scan left to right; each `'}'` followed by a maximal nonempty run of
non-slash characters (the regex `\}[^/]+`) is replaced by a bare `'}'`,
deleting the run; every other character is copied. -/
def cleanSuffix : List Char → List Char
  | [] => []
  | c :: rest =>
    if c = '}' then
      if (rest.takeWhile notSlash).isEmpty then '}' :: cleanSuffix rest
      else '}' :: cleanSuffix (rest.dropWhile notSlash)
    else c :: cleanSuffix rest
termination_by l => l.length
decreasing_by
  · simp
  · have hle : ∀ t : List Char, (List.dropWhile notSlash t).length ≤ t.length := by
      intro t
      induction t with
      | nil => simp
      | cons a t2 iht =>
        rw [List.dropWhile_cons]
        by_cases h : notSlash a = true
        · rw [if_pos h]
          exact Nat.le_succ_of_le iht
        · rw [if_neg h]
    exact Nat.lt_succ_of_le (hle rest)
  · simp

/-- `NativeAdapter.transformPattern` (nativeadapter lines 133-152): convert
Gin-style `:name` parameters to Go 1.22 `{name}` style, then — when the
result contains a `'}'` — aggressively delete any same-segment text stuck
after a closing brace. -/
def transformPattern (p : List Char) : List Char :=
  let converted := convertParams p
  if converted.contains '}' then cleanSuffix converted else converted

/-- Assoc-list lookup returns the bound value whenever the keys are unique,
regardless of where the pair sits in the list (Go map lookup). -/
theorem lookup_eq_of_mem_of_nodup {H : Type} {handlers : List (List Char × H)}
    {k : List Char} {h : H} (hmem : (k, h) ∈ handlers)
    (hnodup : (handlers.map Prod.fst).Nodup) :
    handlers.lookup k = some h := by
  induction handlers with
  | nil => cases hmem
  | cons e rest ih =>
    rcases List.mem_cons.mp hmem with hmem | hmem
    · rw [← hmem]
      simp [List.lookup]
    · rw [List.map_cons] at hnodup
      obtain ⟨hk, hrest⟩ := List.nodup_cons.mp hnodup
      have hne : (k == e.1) = false := by
        rw [beq_eq_false_iff_ne]
        intro hkk
        have hin : k ∈ List.map Prod.fst rest := List.mem_map_of_mem Prod.fst hmem
        rw [hkk] at hin
        exact hk hin
      simp only [List.lookup, hne]
      exact ih hmem hrest

/-- C1: if a fully static pattern `S` is registered (its exact key
`method + " " + path` is bound in the Handlers map to `hS`), then
`MockRouter.ServeHTTP` on any path matching `S` exactly selects `hS` — the
exact-key lookup succeeds before the dynamic fallback scan runs — and never
selects the handler of any colliding dynamic entry distinct from `hS`. -/
theorem C1_static_beats_dynamic {H : Type} (handlers : List (List Char × H))
    (notFound : H) (method path : List Char) (hS : H)
    (hmem : (method ++ ' ' :: path, hS) ∈ handlers)
    (hnodup : (handlers.map Prod.fst).Nodup) :
    mockServeHTTP handlers notFound method path = hS ∧
      ∀ e ∈ handlers, e.2 ≠ hS →
        mockServeHTTP handlers notFound method path ≠ e.2 := by
  have hlook := lookup_eq_of_mem_of_nodup hmem hnodup
  have hmain : mockServeHTTP handlers notFound method path = hS := by
    simp only [mockServeHTTP, hlook]
  refine ⟨hmain, ?_⟩
  intro e _ hne
  rw [hmain]
  exact fun hc => hne hc.symm

/-- C1 witness: the `/files/config` vs `/files/:name` scenario from the test
suite; the static handler (1) is selected, never the dynamic one (2). -/
theorem C1_witness :
    mockServeHTTP
      [(chars "GET /files/config", 1), (chars "GET /files/:name", 2)]
      0 (chars "GET") (chars "/files/config") = 1 :=
  (C1_static_beats_dynamic
    [(chars "GET /files/config", 1), (chars "GET /files/:name", 2)]
    0 (chars "GET") (chars "/files/config") 1
    (by decide) (by decide)).1

/-- C6 counterexample: two dynamic patterns `GET /a/:x` and `GET /a/:y` both
match the path `/a/z`.  The two lists are permutations of each other — the
same Handlers map under two iteration orders — yet `ServeHTTP` selects
handler 1 under one order and handler 2 under the other, so resolution is
not deterministic and is not fixed by registration order. -/
theorem C6_counterexample :
    ([(chars "GET /a/:x", 1), (chars "GET /a/:y", 2)] :
        List (List Char × Nat)).Perm
      [(chars "GET /a/:y", 2), (chars "GET /a/:x", 1)] ∧
    mockServeHTTP [(chars "GET /a/:x", 1), (chars "GET /a/:y", 2)] 0
      (chars "GET") (chars "/a/z") = 1 ∧
    mockServeHTTP [(chars "GET /a/:y", 2), (chars "GET /a/:x", 1)] 0
      (chars "GET") (chars "/a/z") = 2 :=
  ⟨List.Perm.swap _ _ _, by decide, by decide⟩

/-- C6 amended: resolution through the exact-key (static) lookup is
deterministic — whenever the exact `method + " " + path` key is registered,
any two iteration orders of the Handlers map select the same handler. -/
theorem C6_static_resolution_deterministic {H : Type}
    (l1 l2 : List (List Char × H)) (notFound : H)
    (method path : List Char) (h : H)
    (h1 : (method ++ ' ' :: path, h) ∈ l1)
    (h2 : (method ++ ' ' :: path, h) ∈ l2)
    (n1 : (l1.map Prod.fst).Nodup) (n2 : (l2.map Prod.fst).Nodup) :
    mockServeHTTP l1 notFound method path =
      mockServeHTTP l2 notFound method path := by
  have e1 := lookup_eq_of_mem_of_nodup h1 n1
  have e2 := lookup_eq_of_mem_of_nodup h2 n2
  simp only [mockServeHTTP, e1, e2]

/-- C6 witness: the `/files` table under two iteration orders resolves
`GET /files/config` identically. -/
theorem C6_witness :
    mockServeHTTP
        [(chars "GET /files/config", 10), (chars "GET /files/:name", 20)] 0
        (chars "GET") (chars "/files/config") =
      mockServeHTTP
        [(chars "GET /files/:name", 20), (chars "GET /files/config", 10)] 0
        (chars "GET") (chars "/files/config") :=
  C6_static_resolution_deterministic _ _ 0 (chars "GET") (chars "/files/config")
    10 (by decide) (by decide) (by decide) (by decide)

/-- The downward loop is the right fold of the middleware list. -/
theorem Chain_eq_foldr {H : Type} (h : H) (mws : List (H → H)) :
    Chain h mws = mws.foldr (fun m acc => m acc) h := by
  unfold Chain
  rcases mws with _ | ⟨m, rest⟩
  · simp
  · rw [if_neg (by simp)]
    rw [List.foldl_reverse]

/-- Chaining the trace semantics of a middleware list. -/
theorem Chain_map_applyMW {E : Type} (ms : List (MW E))
    (term : ExecState E → ExecState E) :
    Chain term (ms.map applyMW) = ms.foldr applyMW term := by
  rw [Chain_eq_foldr, List.foldr_map]

/-- C4: the composed chain is the right fold `m1 (m2 (... mn h))`: `Chain`
and the register-time composition loop both equal `List.foldr`, `Chain` of
an empty middleware list is the handler itself, and in the trace semantics
the first middleware added is the outermost layer — its pre-continuation
event is logged before the rest of the chain runs and its post-continuation
event after the whole rest has finished. -/
theorem C4_chain_is_right_fold {H E : Type} (h : H) (mws : List (H → H)) :
    Chain h mws = mws.foldr (fun m acc => m acc) h ∧
    Chain h ([] : List (H → H)) = h ∧
    composeMiddlewares mws h = mws.foldr (fun m acc => m acc) h ∧
    ∀ (a b : E) (ms : List (MW E)) (term : ExecState E → ExecState E)
      (s : ExecState E),
      Chain term ((MW.pass a b :: ms).map applyMW) s =
        (fun s1 => { s1 with log := s1.log ++ [b] })
          (Chain term (ms.map applyMW) { s with log := s.log ++ [a] }) := by
  refine ⟨Chain_eq_foldr h mws, by simp [Chain], ?_, ?_⟩
  · have := Chain_eq_foldr h mws
    rw [Chain] at this
    rcases mws with _ | ⟨m, rest⟩
    · simp [composeMiddlewares]
    · rw [if_neg (by simp)] at this
      exact this
  · intro a b ms term s
    rw [Chain_map_applyMW, Chain_map_applyMW]
    rfl

/-- C2: in a registered chain whose outer layers all invoke their
continuation, a middleware that returns without invoking its continuation
commits its own response as the response of the whole chain, and the log
shows that neither the terminal handler nor any layer inner to the aborting
middleware ever ran (the result does not depend on `rest` or `term`): the
final log is exactly the outer pre-events, the abort response, and the outer
post-events in reverse.  Additionally, in the Gin adapter, `Abort` is
invoked on the engine exactly when the standard middleware did not call its
continuation, and the wrapped step otherwise behaves as the plain layer. -/
theorem C2_abort_short_circuits {E : Type} (outer rest : List (MW E)) (r : E)
    (term : ExecState E → ExecState E) (s : ExecState E)
    (houter : ∀ m ∈ outer, callsNext m = true) :
    (Chain term ((outer ++ MW.abort r :: rest).map applyMW) s).response =
        some r ∧
    (Chain term ((outer ++ MW.abort r :: rest).map applyMW) s).log =
        (s.log ++ outer.map entryEvent) ++ r :: (outer.map exitEvent).reverse ∧
    ∀ (m : MW E) (next : ExecState E → ExecState E) (s2 : ExecState E),
      (ginUseStep m next s2).2 = !(callsNext m) ∧
      (ginUseStep m next s2).1 = applyMW m next s2 := by
  rw [Chain_map_applyMW]
  have hgin : ∀ (m : MW E) (next : ExecState E → ExecState E)
      (s2 : ExecState E),
      (ginUseStep m next s2).2 = !(callsNext m) ∧
      (ginUseStep m next s2).1 = applyMW m next s2 := by
    intro m next s2
    cases m <;> simp [ginUseStep, callsNext, applyMW]
  have main : ∀ (outer2 : List (MW E)) (s3 : ExecState E),
      (∀ m ∈ outer2, callsNext m = true) →
      ((outer2 ++ MW.abort r :: rest).foldr applyMW term s3).response = some r ∧
      ((outer2 ++ MW.abort r :: rest).foldr applyMW term s3).log =
        (s3.log ++ outer2.map entryEvent) ++
          r :: (outer2.map exitEvent).reverse := by
    intro outer2
    induction outer2 with
    | nil =>
      intro s3 _
      simp [applyMW, entryEvent]
    | cons m tail ih =>
      intro s3 hall
      cases m with
      | abort q =>
        have := hall (MW.abort q) (List.mem_cons_self _ _)
        simp [callsNext] at this
      | pass a b =>
        have htail : ∀ m ∈ tail, callsNext m = true :=
          fun m hm => hall m (List.mem_cons_of_mem _ hm)
        obtain ⟨ihr, ihl⟩ := ih { s3 with log := s3.log ++ [a] } htail
        constructor
        · simpa [applyMW] using ihr
        · simp only [List.cons_append, List.foldr_cons, applyMW]
          rw [ihl]
          simp [entryEvent, exitEvent]
      
  obtain ⟨hr, hl⟩ := main outer s houter
  exact ⟨hr, hl, hgin⟩

/-- C2 witness: outer layer `pass 1 2`, aborting middleware response `7`,
inner layer `pass 3 4`, terminal `9`: the chain's response is `7` and its
log is `[1, 7, 2]` — events 3, 4 and 9 never happen. -/
theorem C2_witness :
    (Chain (terminalH 9)
        (([MW.pass 1 2] ++ MW.abort 7 :: [MW.pass 3 4]).map applyMW)
        ⟨[], none⟩).response = some 7 ∧
    (Chain (terminalH 9)
        (([MW.pass 1 2] ++ MW.abort 7 :: [MW.pass 3 4]).map applyMW)
        ⟨[], none⟩).log = [1, 7, 2] := by
  obtain ⟨h1, h2, _⟩ := C2_abort_short_circuits [MW.pass 1 2] [MW.pass 3 4] 7
    (terminalH 9) ⟨[], none⟩ (by decide)
  exact ⟨h1, by rw [h2]; rfl⟩

/-- C5: with a parameter binding injected at dispatch, `Param` returns
exactly the string bound to the name, and the empty string when the name is
absent from the binding or when no binding was injected — for both the Mock
and the Fiber adapter. -/
theorem C5_param_round_trip (params : List (List Char × List Char))
    (nm v : List Char) (hfound : params.lookup nm = some v) :
    mockParam (some params) nm = v ∧ fiberParam (some params) nm = v ∧
    (∀ nm2, params.lookup nm2 = none →
      mockParam (some params) nm2 = [] ∧ fiberParam (some params) nm2 = []) ∧
    (∀ nm2, mockParam none nm2 = [] ∧ fiberParam none nm2 = []) := by
  refine ⟨by simp [mockParam, hfound], by simp [fiberParam, hfound], ?_, ?_⟩
  · intro nm2 habs
    exact ⟨by simp [mockParam, habs], by simp [fiberParam, habs]⟩
  · intro nm2
    exact ⟨rfl, rfl⟩

/-- C5 witness: the `/shop/category/:cat/item/:id` scenario — the binding
`cat=books, id=42` round-trips through `Param`. -/
theorem C5_witness :
    mockParam (some [(chars "cat", chars "books"), (chars "id", chars "42")])
      (chars "id") = chars "42" :=
  (C5_param_round_trip
    [(chars "cat", chars "books"), (chars "id", chars "42")]
    (chars "id") (chars "42") (by decide)).1

/-- C9: requesting an unregistered driver makes `New` fail loudly with an
error that names the missing driver — it never silently returns another
implementation — while every registered driver resolves to the result of its
own registered constructor. -/
theorem C9_missing_driver_fails_loudly {T : Type}
    (reg : String → Option (Unit → T)) (cfg : Config)
    (hmiss : reg cfg.driver = none) :
    New reg cfg = .error ("Transwarp Error: Driver '" ++ cfg.driver ++
        "' is not available. Did you forget to compile with '-tags " ++
        cfg.driver ++ "'?") ∧
    (∀ t, New reg cfg ≠ .ok t) ∧
    ∀ (d : String) (c : Unit → T), New (Register reg d c) ⟨d⟩ = .ok (c ()) := by
  refine ⟨by simp [New, hmiss], by simp [New, hmiss], ?_⟩
  intro d c
  simp [New, Register]

/-- C9 witness: an empty registry rejects the `fiber` driver with the
message naming it. -/
theorem C9_witness :
    New (T := Unit) (fun _ => none) ⟨"fiber"⟩ =
      .error ("Transwarp Error: Driver '" ++ "fiber" ++
        "' is not available. Did you forget to compile with '-tags " ++
        "fiber" ++ "'?") :=
  (C9_missing_driver_fails_loudly (fun _ => none) ⟨"fiber"⟩ rfl).1

/-- `updateAt` touches only the targeted index. -/
theorem updateAt_getElem (l : List GroupState) (i j : Nat)
    (f : GroupState → GroupState) :
    (updateAt l i f)[j]? = if i = j then (l[j]?).map f else l[j]? := by
  induction l generalizing i j with
  | nil => simp [updateAt]
  | cons x xs ih =>
    cases i with
    | zero =>
      cases j with
      | zero => simp [updateAt]
      | succ j2 => simp [updateAt]
    | succ i2 =>
      cases j with
      | zero => simp [updateAt, Nat.succ_ne_zero]
      | succ j2 =>
        simp only [updateAt, List.getElem?_cons_succ]
        rw [ih i2 j2]
        by_cases h : i2 = j2 <;> simp [h]

/-- Running one more setup call after a sequence. -/
theorem runSetup_append_single (st : SetupState) (ops : List SetupOp)
    (op : SetupOp) :
    runSetup st (ops ++ [op]) = applyOp (runSetup st ops) op := by
  simp [runSetup, List.foldl_append]

/-- Core copy-on-branch invariant: an existing group's state after any setup
sequence is its state at observation time plus exactly the middlewares that
`Use` was called with on that same group — branching children, uses on other
groups, and registrations never touch it. -/
theorem runSetup_groups_get (ops : List SetupOp) (st : SetupState) (g : Nat)
    (gs : GroupState) (hg : st.groups[g]? = some gs) :
    (runSetup st ops).groups[g]? = some ⟨gs.pfx, gs.mws ++ usesOn ops g⟩ := by
  induction ops generalizing st gs with
  | nil =>
    simpa [runSetup, usesOn] using hg
  | cons op rest ih =>
    have hstep : runSetup st (op :: rest) = runSetup (applyOp st op) rest := by
      simp [runSetup]
    rw [hstep]
    cases op with
    | group parent sub =>
      have husesOn : usesOn (SetupOp.group parent sub :: rest) g =
          usesOn rest g := by simp [usesOn]
      rw [husesOn]
      cases hpar : st.groups[parent]? with
      | none =>
        exact ih _ _ (by simpa [applyOp, hpar] using hg)
      | some p =>
        refine ih _ _ ?_
        have hlt : g < st.groups.length := by
          by_contra hge
          rw [List.getElem?_eq_none (Nat.le_of_not_lt hge)] at hg
          cases hg
        simp only [applyOp, hpar]
        rw [List.getElem?_append, if_pos hlt]
        exact hg
    | use g2 mw =>
      by_cases hgg : g2 = g
      · subst hgg
        have husesOn : usesOn (SetupOp.use g2 mw :: rest) g2 =
            mw :: usesOn rest g2 := by simp [usesOn]
        rw [husesOn]
        have hnew : (applyOp st (SetupOp.use g2 mw)).groups[g2]? =
            some ⟨gs.pfx, gs.mws ++ [mw]⟩ := by
          simp [applyOp, updateAt_getElem, hg]
        have := ih _ _ hnew
        simpa [List.append_assoc] using this
      · have husesOn : usesOn (SetupOp.use g2 mw :: rest) g =
            usesOn rest g := by simp [usesOn, hgg]
        rw [husesOn]
        refine ih _ _ ?_
        simp [applyOp, updateAt_getElem, hgg, hg]
    | register g2 method path handler =>
      have husesOn : usesOn (SetupOp.register g2 method path handler :: rest) g
          = usesOn rest g := by simp [usesOn]
      rw [husesOn]
      refine ih _ _ ?_
      cases hg2 : st.groups[g2]? <;> simp [applyOp, hg2, hg]

/-- C3: a child branched from a group takes a value copy of the parent's
middleware stack, so after any subsequent setup activity a group's stack is
exactly its stack at creation plus its own `Use` calls: middleware used on a
child (or any other group) never appears in the parent's or a sibling's
stack, and a route then registered on the group is wrapped with exactly the
group's own middlewares. -/
theorem C3_group_middleware_isolation (ops : List SetupOp) (st : SetupState)
    (g : Nat) (gs : GroupState) (hg : st.groups[g]? = some gs) :
    (runSetup st ops).groups[g]? = some ⟨gs.pfx, gs.mws ++ usesOn ops g⟩ ∧
    (∀ mw, mw ∉ gs.mws → mw ∉ usesOn ops g →
      ∀ gs2, (runSetup st ops).groups[g]? = some gs2 → mw ∉ gs2.mws) ∧
    ∀ method path handler,
      (runSetup st (ops ++ [.register g method path handler])).table =
        (runSetup st ops).table ++
          [⟨method ++ ' ' :: (gs.pfx ++ path), handler,
            gs.mws ++ usesOn ops g⟩] := by
  have hmain := runSetup_groups_get ops st g gs hg
  refine ⟨hmain, ?_, ?_⟩
  · intro mw h1 h2 gs2 hgs2
    rw [hmain] at hgs2
    cases hgs2
    intro hmem
    rcases List.mem_append.mp hmem with h | h
    exacts [h1 h, h2 h]
  · intro method path handler
    rw [runSetup_append_single]
    simp [applyOp, hmain]

/-- C3 witness: a parent carrying middleware `3` branches a child, the child
adds middleware `5`; the parent's stack is still exactly `[3]`. -/
theorem C3_witness :
    (runSetup ⟨[⟨[], [3]⟩], []⟩
        [.group 0 (chars "/sub"), .use 1 5]).groups[0]? =
      some ⟨[], [3] ++ usesOn [.group 0 (chars "/sub"), .use 1 5] 0⟩ :=
  (C3_group_middleware_isolation [.group 0 (chars "/sub"), .use 1 5]
    ⟨[⟨[], [3]⟩], []⟩ 0 ⟨[], [3]⟩ rfl).1

/-- C8 counterexample: `MockRouter.Group` (cited by the claim) builds the
child prefix by plain concatenation `m.prefix + path` with no slash
normalization: branching `"admin"` (no leading slash) off a parent with
prefix `"/api"` yields `"/apiadmin"`, not the claimed `"/api/admin"`. -/
theorem C8_counterexample :
    (runSetup ⟨[⟨chars "/api", []⟩], []⟩
        [.group 0 (chars "admin")]).groups[1]? =
      some ⟨chars "/api" ++ chars "admin", []⟩ ∧
    chars "/api" ++ chars "admin" ≠ chars "/api" ++ '/' :: chars "admin" :=
  ⟨by decide, by decide⟩

/-- C8 amended: the `NativeAdapter`'s `joinPath` does normalize to exactly
one separating slash for every combination of a trailing slash on the
parent and a leading slash on the sub-prefix; the `MockRouter`'s `Group`,
by contrast, concatenates the two strings verbatim (see the
counterexample). -/
theorem C8_joinPath_single_separator (base s : List Char)
    (hbase : base ≠ []) (hbl : base.getLast? ≠ some '/')
    (hs : s ≠ []) (hsh : s.head? ≠ some '/') :
    joinPath base s = base ++ '/' :: s ∧
    joinPath base ('/' :: s) = base ++ '/' :: s ∧
    joinPath (base ++ ['/']) s = base ++ '/' :: s ∧
    joinPath (base ++ ['/']) ('/' :: s) = base ++ '/' :: s := by
  have hs2 : ¬(s = [] ∨ s = ['/']) := by
    rintro (h | h)
    · exact hs h
    · rw [h] at hsh
      exact hsh rfl
  have hp2 : ¬('/' :: s = [] ∨ '/' :: s = ['/']) := by
    rintro (h | h)
    · cases h
    · rw [List.cons_eq_cons] at h
      exact hs h.2
  have hb2 : base ++ ['/'] ≠ [] := by simp
  have htrim : trimOneTrailingSlash base = base := by
    rw [trimOneTrailingSlash, if_neg hbl]
  have htrim2 : trimOneTrailingSlash (base ++ ['/']) = base := by
    rw [trimOneTrailingSlash, if_pos (by simp)]
    simp
  refine ⟨?_, ?_, ?_, ?_⟩
  · rw [joinPath, if_neg hbase, if_neg hs2, htrim, if_neg hsh]
  · rw [joinPath, if_neg hbase, if_neg hp2, htrim,
      if_pos (show ('/' :: s).head? = some '/' from rfl)]
  · rw [joinPath, if_neg hb2, if_neg hs2, htrim2, if_neg hsh]
  · rw [joinPath, if_neg hb2, if_neg hp2, htrim2,
      if_pos (show ('/' :: s).head? = some '/' from rfl)]

/-- C8 witness: `joinPath "/api" "admin" = "/api/admin"`. -/
theorem C8_witness :
    joinPath (chars "/api") (chars "admin") =
      chars "/api" ++ '/' :: chars "admin" :=
  (C8_joinPath_single_separator (chars "/api") (chars "admin")
    (by decide) (by decide) (by decide) (by decide)).1

/-- C7 counterexample: on the MockRouter (one of the claim's cited
boundaries) a handler fault is NOT caught: dispatching `GET /boom` to a
panicking handler re-raises the fault past the dispatch boundary instead of
producing a 500 response. -/
theorem C7_counterexample :
    mockDispatch [(chars "GET /boom", fun _ => .error (chars "boom"))]
      (fun _ => .ok ⟨404, chars "404"⟩) (chars "GET") (chars "/boom") =
      .error (chars "boom") := rfl

/-- C7 amended: the Fiber adapter's chain boundary recovers every fault,
converts it to the generic 500 "Panic Detected" response, and passes normal
responses through unchanged; the MockRouter (and the other adapters in this
repository) have no such recovery. -/
theorem C7_fiber_recovers_faults (resp : HttpResp) (fault : List Char) :
    fiberRouteHandler (.ok resp) = resp ∧
    fiberRouteHandler (.error fault) = ⟨500, chars "Panic Detected"⟩ :=
  ⟨rfl, rfl⟩

/-- One-step unfolding of `convertParams` on nil. -/
theorem convertParams_nil : convertParams [] = [] := by
  simp only [convertParams]

/-- One-step unfolding of `convertParams` on cons. -/
theorem convertParams_cons (c : Char) (rest : List Char) :
    convertParams (c :: rest) =
      if c = ':' then
        if (rest.takeWhile wordChar).isEmpty then ':' :: convertParams rest
        else
          '{' :: rest.takeWhile wordChar ++
            '}' :: convertParams (rest.dropWhile wordChar)
      else c :: convertParams rest := by
  simp only [convertParams]

/-- One-step unfolding of `cleanSuffix` on nil. -/
theorem cleanSuffix_nil : cleanSuffix [] = [] := by
  simp only [cleanSuffix]

/-- One-step unfolding of `cleanSuffix` on cons. -/
theorem cleanSuffix_cons (c : Char) (rest : List Char) :
    cleanSuffix (c :: rest) =
      if c = '}' then
        if (rest.takeWhile notSlash).isEmpty then '}' :: cleanSuffix rest
        else '}' :: cleanSuffix (rest.dropWhile notSlash)
      else c :: cleanSuffix rest := by
  simp only [cleanSuffix]

/-- `takeWhile`/`dropWhile` split a list at the first predicate failure. -/
theorem takeWhile_append_stop (p : Char → Bool) (nm : List Char) (s0 : Char)
    (rest : List Char) (hall : ∀ c ∈ nm, p c = true) (hstop : p s0 = false) :
    (nm ++ s0 :: rest).takeWhile p = nm ∧
    (nm ++ s0 :: rest).dropWhile p = s0 :: rest := by
  induction nm with
  | nil => simp [List.takeWhile_cons, List.dropWhile_cons, hstop]
  | cons a t ih =>
    have ha : p a = true := hall a (List.mem_cons_self _ _)
    have ht := ih fun c hc => hall c (List.mem_cons_of_mem _ hc)
    simp [List.takeWhile_cons, List.dropWhile_cons, ha, ht.1, ht.2]

/-- A list all of whose elements satisfy `p` is untouched by the split. -/
theorem takeWhile_all (p : Char → Bool) (l : List Char)
    (hall : ∀ c ∈ l, p c = true) :
    l.takeWhile p = l ∧ l.dropWhile p = [] := by
  induction l with
  | nil => simp
  | cons a t ih =>
    have ha : p a = true := hall a (List.mem_cons_self _ _)
    have ht := ih fun c hc => hall c (List.mem_cons_of_mem _ hc)
    simp [List.takeWhile_cons, List.dropWhile_cons, ha, ht.1, ht.2]

/-- The parameter conversion passes over colon-free text unchanged. -/
theorem convertParams_append (pre t : List Char)
    (hpre : ∀ c ∈ pre, c ≠ ':') :
    convertParams (pre ++ t) = pre ++ convertParams t := by
  induction pre with
  | nil => simp
  | cons a pr ih =>
    have ha : a ≠ ':' := hpre a (List.mem_cons_self _ _)
    rw [List.cons_append, convertParams_cons, if_neg ha,
      ih fun c hc => hpre c (List.mem_cons_of_mem _ hc), List.cons_append]

/-- The parameter conversion is the identity on colon-free strings. -/
theorem convertParams_no_colon (t : List Char) (h : ∀ c ∈ t, c ≠ ':') :
    convertParams t = t := by
  have := convertParams_append t [] h
  simpa [convertParams_nil] using this

/-- The suffix cleaner passes over brace-free text unchanged. -/
theorem cleanSuffix_append (pre t : List Char)
    (hpre : ∀ c ∈ pre, c ≠ '}') :
    cleanSuffix (pre ++ t) = pre ++ cleanSuffix t := by
  induction pre with
  | nil => simp
  | cons a pr ih =>
    have ha : a ≠ '}' := hpre a (List.mem_cons_self _ _)
    rw [List.cons_append, cleanSuffix_cons, if_neg ha,
      ih fun c hc => hpre c (List.mem_cons_of_mem _ hc), List.cons_append]

/-- C10: a route template whose parameter is immediately followed by extra
literal characters within the same segment is registered with that literal
suffix silently deleted: `transformPattern` turns
`pre ++ ":name" ++ suffix` into `pre ++ "{name}"`, the suffix (a nonempty
same-segment run starting with a non-word character) never surviving into
the pattern handed to the mux. -/
theorem C10_param_suffix_deleted (pre nm : List Char) (s0 : Char)
    (rest : List Char)
    (hpre : ∀ c ∈ pre, c ≠ ':' ∧ c ≠ '}')
    (hnm : nm ≠ []) (hnmw : ∀ c ∈ nm, wordChar c = true)
    (hs0w : wordChar s0 = false)
    (hs0 : s0 ≠ '/' ∧ s0 ≠ ':')
    (hrest : ∀ c ∈ rest, c ≠ '/' ∧ c ≠ ':') :
    transformPattern (pre ++ ':' :: nm ++ s0 :: rest) =
      pre ++ '{' :: nm ++ ['}'] := by
  have hpreColon : ∀ c ∈ pre, c ≠ ':' := fun c hc => (hpre c hc).1
  have hpreBrace : ∀ c ∈ pre, c ≠ '}' := fun c hc => (hpre c hc).2
  have hnmBrace : ∀ c ∈ nm, c ≠ '}' := by
    intro c hc hceq
    have := hnmw c hc
    rw [hceq] at this
    exact absurd this (by decide)
  have hsplit := takeWhile_append_stop wordChar nm s0 rest hnmw hs0w
  have hnoColon : ∀ c ∈ s0 :: rest, c ≠ ':' := by
    intro c hc
    rcases List.mem_cons.mp hc with h | h
    · rw [h]; exact hs0.2
    · exact (hrest c h).2
  have hconv : convertParams (pre ++ (':' :: (nm ++ s0 :: rest))) =
      pre ++ ('{' :: (nm ++ ('}' :: (s0 :: rest)))) := by
    rw [convertParams_append pre _ hpreColon]
    congr 1
    rw [convertParams_cons, if_pos rfl, hsplit.1, hsplit.2,
      if_neg (by simp [hnm]), convertParams_no_colon _ hnoColon,
      List.cons_append]
  have hallNS : ∀ c ∈ s0 :: rest, notSlash c = true := by
    intro c hc
    rcases List.mem_cons.mp hc with h | h
    · rw [h]
      simp [notSlash, hs0.1]
    · simp [notSlash, (hrest c h).1]
  have htake := takeWhile_all notSlash (s0 :: rest) hallNS
  have hclean : cleanSuffix (pre ++ ('{' :: (nm ++ ('}' :: (s0 :: rest))))) =
      pre ++ ('{' :: (nm ++ ['}'])) := by
    rw [cleanSuffix_append pre _ hpreBrace]
    congr 1
    rw [cleanSuffix_cons, if_neg (by decide)]
    congr 1
    rw [cleanSuffix_append nm _ hnmBrace]
    congr 1
    rw [cleanSuffix_cons, if_pos rfl, htake.1, htake.2,
      if_neg (by simp), cleanSuffix_nil]
  have hcontains :
      (pre ++ ('{' :: (nm ++ ('}' :: (s0 :: rest))))).contains '}' = true := by
    simp
  have hL : pre ++ ':' :: nm ++ s0 :: rest =
      pre ++ (':' :: (nm ++ s0 :: rest)) := by
    simp [List.append_assoc]
  have hR : pre ++ '{' :: nm ++ ['}'] = pre ++ ('{' :: (nm ++ ['}'])) := by
    simp [List.append_assoc]
  rw [hL, hR]
  simp only [transformPattern]
  rw [hconv, if_pos hcontains]
  exact hclean

/-- C10 witness: `"/v1/product/:id.json"` is registered as
`"/v1/product/{id}"` — the literal `.json` suffix is deleted. -/
theorem C10_witness :
    transformPattern
        (chars "/v1/product/" ++ ':' :: chars "id" ++ '.' :: chars "json") =
      chars "/v1/product/" ++ '{' :: chars "id" ++ ['}'] :=
  C10_param_suffix_deleted (chars "/v1/product/") (chars "id") '.'
    (chars "json") (by decide) (by decide) (by decide) (by decide)
    (by decide) (by decide)
